import Mathlib

/-!
Verification of the tileset-painter autotiling core.

This file gives a shallow embedding of the tile-painting logic of
`src/components/TilePainter.tsx` (data model from `src/types/tileset.ts`)
and proves the specified properties about it: the border-resolver priority
system, the inward-corner adjacency triples, the history (undo/redo)
state machine, the flood-fill algorithm, the noise sampler, and the
frame conditions of the full border-recalculation pass.

Modelling conventions:
- JS `Map<string, PaintedTile>` keyed by `"x,y"` strings becomes an
  association list keyed by integer pairs (the string key is in bijection
  with the integer pair); `Map.set` replaces in place, `Map.delete`
  removes, `Map.get` is the first (unique) matching entry.
- JS `null`/`undefined` become `Option`.
- JS numbers used as grid coordinates are `Int`; `noiseProbability` and
  the `Math.random()` draws are `Rat` (the code only compares and scales
  them, so exact arithmetic is a faithful model of the float arithmetic
  on the values the claims quantify over).
- Random draws are passed in explicitly: one draw in `[0,1)` scaled by
  100 for the probability test, and one draw in `[0,1)` for the index
  selection, exactly as the two `Math.random()` calls in the source.
- React `setState` is modelled by its observable effect at event-handler
  granularity: an update queued during a handler is applied after the
  handler returns, and a running handler reads the values captured by its
  closure. This matters in `handleMouseUp`: its rectangle/circle branch
  queues the shape paint and then pushes the closure's `paintedTiles` —
  the pre-gesture grid — into history (see `handleMouseUpShape`), and
  `handleMouseDown`'s fill branch resets `isPainting` so the fill branch
  of `handleMouseUp` never commits.
-/

/-- Sprite rectangle data carried by `TileData` in `src/types/tileset.ts`.
Only consumed by the (out-of-scope) renderer, but kept on the records for
fidelity. -/
structure TileRect where
  x : Int := 0
  y : Int := 0
  width : Int := 0
  height : Int := 0
deriving DecidableEq

/-- Source `BaseMaterial` from `src/types/tileset.ts`. -/
structure BaseMaterial where
  id : String
  name : String := ""
  tile : TileRect := {}
  color : String := ""
  noiseProbability : Rat
deriving DecidableEq

/-- Source `BorderTile` from `src/types/tileset.ts`: a border rule with its
direction keyword and the two material ids it relates. -/
structure BorderTile where
  id : String
  rect : TileRect := {}
  directions : String
  materialA : String
  materialB : String
deriving DecidableEq

/-- Source `NoiseTile` from `src/types/tileset.ts`. -/
structure NoiseTile where
  id : String
  rect : TileRect := {}
  baseMaterial : String
deriving DecidableEq

/-- Source `TilesetConfig` from `src/types/tileset.ts` (image url and pixel tile
size omitted: they only feed the renderer and the pixel-to-tile
conversion, which is embedded at the tile-coordinate level). -/
structure TilesetConfig where
  id : String
  name : String := ""
  materials : List BaseMaterial
  borders : List BorderTile
  noise : List NoiseTile
deriving DecidableEq

/-- Source `GridConfig` from `src/types/tileset.ts`: logical grid dimensions
(`tileSize` omitted, it only scales pixels before the floor division). -/
structure GridConfig where
  width : Int
  height : Int
deriving DecidableEq

/-- Source `PaintedTile` from `src/types/tileset.ts`. `noiseIds` is `none` when
the optional field is absent (`undefined`). -/
structure PaintedTile where
  x : Int
  y : Int
  materialId : String
  borderTileId : Option String := none
  noiseIds : Option (List String) := none
deriving DecidableEq

/-- A grid coordinate; the JS code keys maps by the string `"x,y"`,
which is in bijection with the pair. -/
abbrev Coord := Int × Int

/-- The sparse painted-cell map (`paintedTiles : Map<string, PaintedTile>`),
as an insertion-ordered association list with unique keys. -/
abbrev TileMap := List (Coord × PaintedTile)

/-- JS `Map.get`: first entry with the given key. -/
def tmGet (m : TileMap) (c : Coord) : Option PaintedTile :=
  (m.find? (fun e => e.1 == c)).map (·.2)

/-- JS `Map.set`: replace the entry in place if the key is present,
otherwise append (JS `Map` insertion-order semantics). -/
def tmSet : TileMap → Coord → PaintedTile → TileMap
  | [], c, v => [(c, v)]
  | e :: rest, c, v => if e.1 == c then (c, v) :: rest else e :: tmSet rest c v

/-- JS `Map.delete`: remove the entry with the given key. -/
def tmDelete (m : TileMap) (c : Coord) : TileMap :=
  m.filter (fun e => !(e.1 == c))

/-- The material seen at a coordinate, as the flood-fill code computes it:
`tile?.materialId || null` — an absent cell and an empty-string material
id are both the empty/background value `none`. -/
def matN (m : TileMap) (c : Coord) : Option String :=
  match tmGet m c with
  | some t => if t.materialId = "" then none else some t.materialId
  | none => none

/-- The eight neighbor materials of a cell, `surroundings` in
`recalculateAllBorders`: `adjacentTile ? adjacentTile.materialId : null`. -/
structure Surroundings where
  n : Option String
  ne : Option String
  e : Option String
  se : Option String
  s : Option String
  sw : Option String
  w : Option String
  nw : Option String
deriving DecidableEq

/-- Source `getAdjacentPositions` combined with the surroundings lookup of
`recalculateAllBorders`. -/
def getAdjacentSurroundings (tilesMap : TileMap) (x y : Int) : Surroundings where
  n := (tmGet tilesMap (x, y - 1)).map (·.materialId)
  ne := (tmGet tilesMap (x + 1, y - 1)).map (·.materialId)
  e := (tmGet tilesMap (x + 1, y)).map (·.materialId)
  se := (tmGet tilesMap (x + 1, y + 1)).map (·.materialId)
  s := (tmGet tilesMap (x, y + 1)).map (·.materialId)
  sw := (tmGet tilesMap (x - 1, y + 1)).map (·.materialId)
  w := (tmGet tilesMap (x - 1, y)).map (·.materialId)
  nw := (tmGet tilesMap (x - 1, y - 1)).map (·.materialId)

/-- Lookup `surroundings[borderType]` for the direction keywords. -/
def dirLookup (su : Surroundings) : String → Option String
  | "n" => su.n
  | "ne" => su.ne
  | "e" => su.e
  | "se" => su.se
  | "s" => su.s
  | "sw" => su.sw
  | "w" => su.w
  | "nw" => su.nw
  | _ => none

/-- Count `orthogonalBorderCount` in `matchesBorderPattern`: how many of the
four cardinal neighbors carry the border material. -/
def orthogonalBorderCount (su : Surroundings) (borderMaterial : String) : Nat :=
  (([su.n, su.e, su.s, su.w].filter (fun d => d == some borderMaterial))).length

/-- JS `directions.startsWith("inward-")`, on the character level. -/
def startsWithInward (d : String) : Bool :=
  d.toList.take 7 == "inward-".toList

/-- JS `borderType.replace("inward-", "")` under the `startsWith` guard:
drop the 7-character "inward-" prefix. -/
def cornerOf (d : String) : String :=
  String.mk (d.toList.drop 7)

/-- Source `matchesBorderPattern` from `TilePainter.tsx` (lines 520-602),
branch for branch (`primaryMaterial` is a parameter of the source
function that its body never reads). -/
def matchesBorderPattern (su : Surroundings)
    (primaryMaterial borderMaterial borderType : String) : Bool :=
  let c := orthogonalBorderCount su borderMaterial
  if borderType = "n" ∨ borderType = "s" ∨ borderType = "e" ∨ borderType = "w" then
    decide (c = 1 ∧ dirLookup su borderType = some borderMaterial)
  else if borderType = "ne" ∨ borderType = "se" ∨ borderType = "sw" ∨ borderType = "nw" then
    if c = 1 then decide (dirLookup su borderType = some borderMaterial)
    else if c = 0 then decide (dirLookup su borderType = some borderMaterial)
    else false
  else if startsWithInward borderType then
    let corner := cornerOf borderType
    if 2 ≤ c then
      if corner = "ne" then
        decide (su.n = some borderMaterial ∧ su.e = some borderMaterial ∧
          su.ne = some borderMaterial)
      else if corner = "se" then
        decide (su.s = some borderMaterial ∧ su.e = some borderMaterial ∧
          su.se = some borderMaterial)
      else if corner = "sw" then
        decide (su.n = some borderMaterial ∧ su.w = some borderMaterial ∧
          su.nw = some borderMaterial)
      else if corner = "nw" then
        decide (su.s = some borderMaterial ∧ su.w = some borderMaterial ∧
          su.sw = some borderMaterial)
      else false
    else false
  else false

/-- The priority assigned to a matching rule in `recalculateAllBorders`
(lines 482-492): inward corners 3, single-letter cardinals 4,
two-letter diagonals 2, anything else 1. -/
def borderPriority (directions : String) : Int :=
  if startsWithInward directions then 3
  else if directions.length = 1 then 4
  else if directions.length = 2 then 2
  else 1

/-- One step of the best-border scan in `recalculateAllBorders`: the rule
applies only when the cell is the primary material, the pattern matches,
and its priority strictly beats the best so far. -/
def bestBorderStep (su : Surroundings) (tileMat : String)
    (acc : Option BorderTile × Int) (border : BorderTile) : Option BorderTile × Int :=
  if border.materialA = tileMat then
    if matchesBorderPattern su tileMat border.materialB border.directions then
      if borderPriority border.directions > acc.2 then
        (some border, borderPriority border.directions)
      else acc
    else acc
  else acc

/-- The `for (const border of config.borders)` scan of
`recalculateAllBorders`, starting from `bestBorder = null`,
`highestPriority = -1`. -/
def findBestBorder (borders : List BorderTile) (su : Surroundings)
    (tileMat : String) : Option BorderTile :=
  (borders.foldl (bestBorderStep su tileMat) (none, -1)).1

/-- Source `recalculateAllBorders` (lines 444-517): rebuild every cell from its
surroundings, keeping `x`, `y`, `materialId` and `noiseIds` and storing
the winning rule id (if any) in `borderTileId`. -/
def recalculateAllBorders (borders : List BorderTile) (tilesMap : TileMap) : TileMap :=
  tilesMap.map (fun e =>
    let tile := e.2
    let su := getAdjacentSurroundings tilesMap tile.x tile.y
    let bestBorder := findBestBorder borders su tile.materialId
    (e.1, { x := tile.x, y := tile.y, materialId := tile.materialId,
            borderTileId := bestBorder.map (·.id),
            noiseIds := tile.noiseIds }))

/-- The noise-selection block shared verbatim by `paintTile` (lines
617-641) and `paintMultipleTiles` (lines 672-695). `r0` and `u` are the
two `Math.random()` draws: the code tests `r0 * 100 <
material.noiseProbability`, then indexes the matching noise list at
`Math.floor(u * availableNoise.length)`. -/
def sampleNoise (config : TilesetConfig) (selectedMaterial : String)
    (r0 u : Rat) : Option String :=
  let material := config.materials.find? (fun m => m.id == selectedMaterial)
  let availableNoise := config.noise.filter (fun n => n.baseMaterial == selectedMaterial)
  match material with
  | some m =>
    if 0 < availableNoise.length ∧ 0 < m.noiseProbability then
      let random := r0 * 100
      if random < m.noiseProbability then
        let randomIndex := (⌊u * availableNoise.length⌋).toNat
        (availableNoise.get? randomIndex).map (·.id)
      else none
    else none
  | none => none

/-- The `PaintedTile` literal built by `paintTile` and
`paintMultipleTiles`: `noiseIds` is a one-element list when a noise id
was selected, absent otherwise. -/
def mkPaintedTile (x y : Int) (materialId : String)
    (selectedNoiseId : Option String) : PaintedTile :=
  { x := x, y := y, materialId := materialId,
    noiseIds := selectedNoiseId.map (fun i => [i]) }

/-- Source `paintTile` (lines 604-656): erase branch deletes the key, paint
branch writes a fresh cell (with a noise roll); either way the whole map
is then re-resolved. An empty `selectedMaterial` is falsy in JS, so the
paint branch does nothing. -/
def paintTile (config : TilesetConfig) (isErasing : Bool)
    (selectedMaterial : String) (prev : TileMap) (x y : Int)
    (r0 u : Rat) : TileMap :=
  if isErasing then
    recalculateAllBorders config.borders (tmDelete prev (x, y))
  else if selectedMaterial ≠ "" then
    let selectedNoiseId := sampleNoise config selectedMaterial r0 u
    recalculateAllBorders config.borders
      (tmSet prev (x, y) (mkPaintedTile x y selectedMaterial selectedNoiseId))
  else prev

/-- The bounds gate of `getTilePosition` (lines 312-335): after the pixel
arithmetic floors to a tile coordinate, the coordinate is returned only
when it lies inside the grid, otherwise `null`. -/
def getTilePositionValid (gc : GridConfig) (x y : Int) : Option Coord :=
  if 0 ≤ x ∧ x < gc.width ∧ 0 ≤ y ∧ y < gc.height then some (x, y) else none

/-- The brush path of `handleMouseDown`/`handleMouseMove`: `getTilePosition`
returning `null` aborts the handler (`if (!pos) return;`), otherwise
`paintTile` runs at the position. -/
def handleBrushAt (config : TilesetConfig) (gc : GridConfig) (isErasing : Bool)
    (selectedMaterial : String) (prev : TileMap) (x y : Int)
    (r0 u : Rat) : TileMap :=
  match getTilePositionValid gc x y with
  | none => prev
  | some pos => paintTile config isErasing selectedMaterial prev pos.1 pos.2 r0 u

/-- The `tileKeys.forEach` write loop of `paintMultipleTiles` (paint
branch): each key gets a fresh cell with its own noise roll; `rnd i` is
the pair of `Math.random()` draws consumed for the i-th key. -/
def paintManyLoop (config : TilesetConfig) (selectedMaterial : String)
    (rnd : Nat → Rat × Rat) (i : Nat) : TileMap → List Coord → TileMap
  | m, [] => m
  | m, k :: ks =>
    let d := rnd i
    let selectedNoiseId := sampleNoise config selectedMaterial d.1 d.2
    paintManyLoop config selectedMaterial rnd (i + 1)
      (tmSet m k (mkPaintedTile k.1 k.2 selectedMaterial selectedNoiseId)) ks

/-- Source `paintMultipleTiles` (lines 658-709), paint branch: write every key,
then one global border recalculation. -/
def paintMultipleTiles (config : TilesetConfig) (selectedMaterial : String)
    (rnd : Nat → Rat × Rat) (prev : TileMap) (tileKeys : List Coord) : TileMap :=
  if selectedMaterial ≠ "" then
    recalculateAllBorders config.borders
      (paintManyLoop config selectedMaterial rnd 0 prev tileKeys)
  else prev

/-- The painter's history-relevant component state: `paintedTiles`,
`history`, `historyIndex`. -/
structure PainterState where
  paintedTiles : TileMap
  history : List TileMap
  historyIndex : Nat
deriving DecidableEq

/-- The commit mechanics of `handleMouseUp` (lines 762-795):
`history.slice(0, historyIndex + 1)`, push a copy of the grid the handler
reads (`new Map(paintedTiles)`), index to the new last position. In the
brush branch the handler's grid is the live grid (the drag's paints were
applied by earlier events); the rectangle/circle branch shares these
mechanics but reads a stale grid (see `handleMouseUpShape`), and the fill
branch is unreachable (`isPainting` was reset in `handleMouseDown`). -/
def commitGesture (st : PainterState) : PainterState :=
  let newHistory := st.history.take (st.historyIndex + 1) ++ [st.paintedTiles]
  { st with history := newHistory, historyIndex := newHistory.length - 1 }

/-- Source `clearCanvas` (lines 797-802): empty the grid and append the empty
snapshot to the whole history list (`[...history, new Map()]` — no
truncation at the current index). -/
def clearCanvas (st : PainterState) : PainterState :=
  let newHistory := st.history ++ [[]]
  { paintedTiles := [], history := newHistory,
    historyIndex := newHistory.length - 1 }

/-- The history commit of `loadMap` (lines 892-896): set the restored
grid and append it to the whole history list (`[...history,
restoredTiles]` — again no truncation). -/
def loadMapCommit (st : PainterState) (restoredTiles : TileMap) : PainterState :=
  let newHistory := st.history ++ [restoredTiles]
  { paintedTiles := restoredTiles, history := newHistory,
    historyIndex := newHistory.length - 1 }

/-- Source `undo` (lines 804-809): when the index is positive, step back and
restore a copy of that snapshot; otherwise nothing. -/
def undo (st : PainterState) : PainterState :=
  if 0 < st.historyIndex then
    { st with
      historyIndex := st.historyIndex - 1
      paintedTiles := (st.history.get? (st.historyIndex - 1)).getD [] }
  else st

/-- Source `redo` (lines 811-816): when the index is before the last snapshot,
step forward and restore that snapshot; otherwise nothing. -/
def redo (st : PainterState) : PainterState :=
  if st.historyIndex < st.history.length - 1 then
    { st with
      historyIndex := st.historyIndex + 1
      paintedTiles := (st.history.get? (st.historyIndex + 1)).getD [] }
  else st

/-- The rectangle/circle branch of `handleMouseUp` (lines 772-784) with
faithful event semantics: `paintMultipleTiles(Array.from(previewTiles))`
only queues the grid update, and the very next line
`newHistoryShape.push(new Map(paintedTiles))` (line 778) reads the
`paintedTiles` captured by the handler's closure — the pre-gesture grid.
The queued update lands after the handler, so the new live grid holds the
painted shape while the snapshot pushed into history is the stale
pre-gesture grid. -/
def handleMouseUpShape (config : TilesetConfig) (selectedMaterial : String)
    (rnd : Nat → Rat × Rat) (st : PainterState) (previewKeys : List Coord) :
    PainterState :=
  let newHistory := st.history.take (st.historyIndex + 1) ++ [st.paintedTiles]
  { paintedTiles := paintMultipleTiles config selectedMaterial rnd
      st.paintedTiles previewKeys
    history := newHistory
    historyIndex := newHistory.length - 1 }

/-- States of the painter reachable from the initial state
(`paintedTiles = new Map()`, `history = [new Map()]`, `historyIndex = 0`).
`mutate` is any `setPaintedTiles` without a history push: a brush paint
during a drag, a fill gesture (whose `handleMouseUp` commit branch is
dead code because `handleMouseDown` resets `isPainting`), or a queued
bulk update. `brushCommit` is the brush-branch mouse-up push, whose
closure grid equals the live grid since the drag's paints were applied by
earlier events. `shapeCommit` is the rectangle/circle mouse-up, which
pushes the stale pre-gesture grid while the queued shape paint lands
after the handler. -/
inductive Reachable : PainterState → Prop
  | init : Reachable ⟨[], [[]], 0⟩
  | mutate (st : PainterState) (g : TileMap) :
      Reachable st → Reachable { st with paintedTiles := g }
  | brushCommit (st : PainterState) :
      Reachable st → Reachable (commitGesture st)
  | shapeCommit (config : TilesetConfig) (selectedMaterial : String)
      (rnd : Nat → Rat × Rat) (st : PainterState) (previewKeys : List Coord) :
      Reachable st →
      Reachable (handleMouseUpShape config selectedMaterial rnd st previewKeys)
  | clear (st : PainterState) :
      Reachable st → Reachable (clearCanvas st)
  | load (st : PainterState) (g : TileMap) :
      Reachable st → Reachable (loadMapCommit st g)
  | undoStep (st : PainterState) :
      Reachable st → Reachable (undo st)
  | redoStep (st : PainterState) :
      Reachable st → Reachable (redo st)

/-- The 4-neighborhood pushed onto the flood-fill queue (lines 425-430),
in source order: east, west, south, north. -/
def adjacentOf (c : Coord) : List Coord :=
  [(c.1 + 1, c.2), (c.1 - 1, c.2), (c.1, c.2 + 1), (c.1, c.2 - 1)]

/-- The finite set of in-bounds coordinates of a `W × H` grid (used only
as a termination measure for the flood-fill loop). -/
def allCells (W H : Int) : Finset Coord :=
  Finset.Icc 0 (W - 1) ×ˢ Finset.Icc 0 (H - 1)

/-- The coordinate is inside the grid (the negation of the early-continue
bounds test of the flood-fill loop, lines 407-413). -/
def inGrid (W H : Int) (c : Coord) : Prop :=
  0 ≤ c.1 ∧ c.1 < W ∧ 0 ≤ c.2 ∧ c.2 < H

/-- The `while (queue.length > 0)` loop of `getFloodFillTiles`
(lines 402-439): pop the front; skip it when already visited or out of
bounds; otherwise mark it visited, and when its material matches the
target, collect it and push its not-yet-visited 4-neighbors. -/
def floodLoop (g : TileMap) (W H : Int) (target : Option String)
    (visited : Finset Coord) (fill : List Coord) (queue : List Coord) :
    List Coord :=
  match queue with
  | [] => fill
  | current :: rest =>
    if current ∈ visited then
      floodLoop g W H target visited fill rest
    else if current.1 < 0 ∨ W ≤ current.1 ∨ current.2 < 0 ∨ H ≤ current.2 then
      floodLoop g W H target visited fill rest
    else if matN g current = target then
      floodLoop g W H target (insert current visited) (fill ++ [current])
        (rest ++ (adjacentOf current).filter
          (fun p => decide (p ∉ insert current visited)))
    else
      floodLoop g W H target (insert current visited) fill rest
termination_by 5 * ((allCells W H) \ visited).card + queue.length
decreasing_by
  · simp only [List.length_cons]
    omega
  · simp only [List.length_cons]
    omega
  · have hmem : current ∈ allCells W H \ visited := by
      rw [Finset.mem_sdiff]
      refine ⟨?_, by assumption⟩
      simp only [allCells, Finset.mem_product, Finset.mem_Icc]
      omega
    have hcard : ((allCells W H) \ insert current visited).card <
        ((allCells W H) \ visited).card := by
      apply Finset.card_lt_card
      constructor
      · exact Finset.sdiff_subset_sdiff (le_refl _) (Finset.subset_insert _ _)
      · intro hsub
        have := hsub hmem
        rw [Finset.mem_sdiff, Finset.mem_insert] at this
        exact this.2 (Or.inl rfl)
    have hq : ((adjacentOf current).filter
        (fun p => decide (p ∉ insert current visited))).length ≤ 4 := by
      have := List.length_filter_le
        (fun p => decide (p ∉ insert current visited)) (adjacentOf current)
      simpa [adjacentOf] using this
    simp only [List.length_append, List.length_cons]
    omega
  · have hmem : current ∈ allCells W H \ visited := by
      rw [Finset.mem_sdiff]
      refine ⟨?_, by assumption⟩
      simp only [allCells, Finset.mem_product, Finset.mem_Icc]
      omega
    have hcard : ((allCells W H) \ insert current visited).card <
        ((allCells W H) \ visited).card := by
      apply Finset.card_lt_card
      constructor
      · exact Finset.sdiff_subset_sdiff (le_refl _) (Finset.subset_insert _ _)
      · intro hsub
        have := hsub hmem
        rw [Finset.mem_sdiff, Finset.mem_insert] at this
        exact this.2 (Or.inl rfl)
    simp only [List.length_cons]
    omega

/-- Source `getFloodFillTiles` (lines 392-442): the target material is the one
at the start coordinate (`null` when unpainted), the queue starts with
the start coordinate. -/
def getFloodFillTiles (g : TileMap) (W H : Int) (startX startY : Int) :
    List Coord :=
  floodLoop g W H (matN g (startX, startY)) ∅ [] [(startX, startY)]

/-- The 4-connected reachability predicate: from the start coordinate through in-bounds
cells whose material equals the flood-fill target: the specification of
what `getFloodFillTiles` collects. -/
inductive FillReach (g : TileMap) (W H : Int) (target : Option String)
    (start : Coord) : Coord → Prop
  | refl : inGrid W H start → matN g start = target → FillReach g W H target start start
  | step {c d : Coord} : FillReach g W H target start c → d ∈ adjacentOf c →
      inGrid W H d → matN g d = target → FillReach g W H target start d

/-- The applicability test of a border rule at a cell, as the scan in
`recalculateAllBorders` performs it: the cell is the rule's primary
material and the adjacency pattern matches. -/
def matchingRule (su : Surroundings) (tileMat : String) (b : BorderTile) : Prop :=
  b.materialA = tileMat ∧ matchesBorderPattern su tileMat b.materialB b.directions = true

/-! ## Concrete fixtures used by witnesses and counterexamples -/

/-- A grass cell at the origin. -/
def grassTile00 : PaintedTile := { x := 0, y := 0, materialId := "grass" }

/-- A water cell at (1,0). -/
def waterTile10 : PaintedTile := { x := 1, y := 0, materialId := "water" }

/-- A 2 by 1 grid: grass at (0,0), water at (1,0). -/
def gridGW : TileMap := [((0, 0), grassTile00), ((1, 0), waterTile10)]

/-- The border rule of the concrete scenario in the spec: grass cells
bordered by water to the east. -/
def ruleE1 : BorderTile :=
  { id := "E1", directions := "e", materialA := "grass", materialB := "water" }

/-- A minimal tileset configuration: one grass material with zero noise
probability, no border rules, no noise rules. -/
def cfgGrass : TilesetConfig :=
  { id := "cfg", materials := [{ id := "grass", noiseProbability := 0 }],
    borders := [], noise := [] }

/-- A grid holding a single grass cell at the origin. -/
def gridG : TileMap := [((0, 0), grassTile00)]

/-- A constant random source. -/
def rndZero : Nat → Rat × Rat := fun _ => (0, 0)

/-- A noise rule decorating grass. -/
def noiseN1 : NoiseTile := { id := "N1", baseMaterial := "grass" }

/-- A configuration with one grass material at 50 percent noise
probability and one grass noise rule. -/
def cfgGrassNoise : TilesetConfig :=
  { id := "cfg2", materials := [{ id := "grass", noiseProbability := 50 }],
    borders := [], noise := [noiseN1] }

/-! ## Basic lemmas about the map operations -/

theorem mem_allCells {W H : Int} {c : Coord} :
    c ∈ allCells W H ↔ inGrid W H c := by
  simp only [allCells, inGrid, Finset.mem_product, Finset.mem_Icc]
  omega

theorem tmGet_tmSet (m : TileMap) (c : Coord) (v : PaintedTile) (d : Coord) :
    tmGet (tmSet m c v) d = if d = c then some v else tmGet m d := by
  induction m with
  | nil =>
    by_cases h : d = c
    · subst h; simp [tmSet, tmGet, List.find?]
    · have hb : (c == d) = false := beq_eq_false_iff_ne.mpr (fun hh => h hh.symm)
      simp [tmSet, tmGet, List.find?, hb, h]
  | cons e rest ih =>
    by_cases hec : e.1 = c
    · by_cases hdc : d = c
      · subst hdc
        simp [tmSet, tmGet, List.find?, hec]
      · have hb : (c == d) = false := beq_eq_false_iff_ne.mpr (fun hh => hdc hh.symm)
        have hb2 : (e.1 == d) = false := by
          simp only [beq_eq_false_iff_ne, ne_eq]
          intro h
          exact hdc (h.symm.trans hec)
        simp [tmSet, tmGet, List.find?, hec, hb, hb2, hdc]
    · have hbe : (e.1 == c) = false := by simpa using hec
      simp only [tmSet, hbe, Bool.false_eq_true, if_false]
      by_cases hde : e.1 = d
      · simp [tmGet, List.find?, hde, if_neg (show ¬ d = c from fun h => hec (hde.trans h))]
      · have hbd : (e.1 == d) = false := by simpa using hde
        simp only [tmGet, List.find?, hbd]
        exact ih

theorem tmGet_tmDelete (m : TileMap) (c d : Coord) :
    tmGet (tmDelete m c) d = if d = c then none else tmGet m d := by
  induction m with
  | nil => simp [tmDelete, tmGet, List.find?]
  | cons e rest ih =>
    by_cases hec : e.1 = c
    · have hb : (e.1 == c) = true := by simpa using hec
      have hstep : tmDelete (e :: rest) c = tmDelete rest c := by
        simp [tmDelete, List.filter, hb]
      rw [hstep, ih]
      by_cases hdc : d = c
      · simp [hdc]
      · have hbd : (e.1 == d) = false := by
          simp only [beq_eq_false_iff_ne, ne_eq]
          intro h
          exact hdc (h.symm.trans hec)
        simp [hdc, tmGet, List.find?, hbd]
    · have hb : (e.1 == c) = false := by simpa using hec
      have hstep : tmDelete (e :: rest) c = e :: tmDelete rest c := by
        simp [tmDelete, List.filter, hb]
      rw [hstep]
      by_cases hde : e.1 = d
      · have hbd : (e.1 == d) = true := by simpa using hde
        have hdc : ¬ d = c := fun h => hec (hde.trans h)
        simp [tmGet, List.find?, hbd, hdc]
      · have hbd : (e.1 == d) = false := by simpa using hde
        simp only [tmGet, List.find?, hbd]
        exact ih

theorem tmGet_map_snd (m : TileMap) (F : PaintedTile → PaintedTile) (k : Coord) :
    tmGet (m.map (fun e => (e.1, F e.2))) k = (tmGet m k).map F := by
  induction m with
  | nil => simp [tmGet, List.find?]
  | cons e rest ih =>
    by_cases hek : e.1 = k
    · have hb : (e.1 == k) = true := by simpa using hek
      simp [tmGet, List.find?, hb]
    · have hb : (e.1 == k) = false := by simpa using hek
      simp only [List.map, tmGet, List.find?, hb]
      exact ih

theorem tmGet_recalculateAllBorders (borders : List BorderTile) (m : TileMap)
    (k : Coord) :
    tmGet (recalculateAllBorders borders m) k =
      (tmGet m k).map (fun t =>
        { x := t.x, y := t.y, materialId := t.materialId,
          borderTileId := (findBestBorder borders
            (getAdjacentSurroundings m t.x t.y) t.materialId).map (·.id),
          noiseIds := t.noiseIds }) :=
  tmGet_map_snd m (fun t =>
    { x := t.x, y := t.y, materialId := t.materialId,
      borderTileId := (findBestBorder borders
        (getAdjacentSurroundings m t.x t.y) t.materialId).map (·.id),
      noiseIds := t.noiseIds }) k

theorem matN_recalculateAllBorders (borders : List BorderTile) (m : TileMap)
    (c : Coord) : matN (recalculateAllBorders borders m) c = matN m c := by
  unfold matN
  rw [tmGet_recalculateAllBorders]
  cases tmGet m c <;> simp

theorem matN_tmSet (m : TileMap) (k : Coord) (v : PaintedTile) (c : Coord) :
    matN (tmSet m k v) c =
      if c = k then (if v.materialId = "" then none else some v.materialId)
      else matN m c := by
  unfold matN
  rw [tmGet_tmSet]
  by_cases h : c = k <;> simp [h]

/-! ## Flood-fill loop: unfolding equations -/

theorem floodLoop_nil (g : TileMap) (W H : Int) (target : Option String)
    (visited : Finset Coord) (fill : List Coord) :
    floodLoop g W H target visited fill [] = fill := by
  rw [floodLoop]

theorem floodLoop_cons_visited (g : TileMap) (W H : Int)
    (target : Option String) (visited : Finset Coord) (fill : List Coord)
    (current : Coord) (rest : List Coord) (h : current ∈ visited) :
    floodLoop g W H target visited fill (current :: rest) =
      floodLoop g W H target visited fill rest := by
  rw [floodLoop]
  simp [h]

theorem floodLoop_cons_oob (g : TileMap) (W H : Int)
    (target : Option String) (visited : Finset Coord) (fill : List Coord)
    (current : Coord) (rest : List Coord) (h : current ∉ visited)
    (hb : current.1 < 0 ∨ W ≤ current.1 ∨ current.2 < 0 ∨ H ≤ current.2) :
    floodLoop g W H target visited fill (current :: rest) =
      floodLoop g W H target visited fill rest := by
  rw [floodLoop]
  simp [h, hb]

theorem floodLoop_cons_match (g : TileMap) (W H : Int)
    (target : Option String) (visited : Finset Coord) (fill : List Coord)
    (current : Coord) (rest : List Coord) (h : current ∉ visited)
    (hb : ¬(current.1 < 0 ∨ W ≤ current.1 ∨ current.2 < 0 ∨ H ≤ current.2))
    (hm : matN g current = target) :
    floodLoop g W H target visited fill (current :: rest) =
      floodLoop g W H target (insert current visited) (fill ++ [current])
        (rest ++ (adjacentOf current).filter
          (fun p => decide (p ∉ insert current visited))) := by
  rw [floodLoop]
  simp [h, hb, hm]

theorem floodLoop_cons_nomatch (g : TileMap) (W H : Int)
    (target : Option String) (visited : Finset Coord) (fill : List Coord)
    (current : Coord) (rest : List Coord) (h : current ∉ visited)
    (hb : ¬(current.1 < 0 ∨ W ≤ current.1 ∨ current.2 < 0 ∨ H ≤ current.2))
    (hm : matN g current ≠ target) :
    floodLoop g W H target visited fill (current :: rest) =
      floodLoop g W H target (insert current visited) fill rest := by
  rw [floodLoop]
  simp [h, hb, hm]

theorem not_oob_iff_inGrid {W H : Int} {c : Coord} :
    ¬(c.1 < 0 ∨ W ≤ c.1 ∨ c.2 < 0 ∨ H ≤ c.2) ↔ inGrid W H c := by
  unfold inGrid
  omega

/-- Soundness of the flood-fill loop: everything it collects is
reachable, provided the already-collected cells are reachable and the
queued cells are reachable whenever they are in-bounds and matching. -/
theorem floodLoop_sound (g : TileMap) (W H : Int) (target : Option String)
    (start : Coord) :
    ∀ (visited : Finset Coord) (fill : List Coord) (queue : List Coord),
    (∀ c ∈ fill, FillReach g W H target start c) →
    (∀ c ∈ queue, inGrid W H c → matN g c = target →
      FillReach g W H target start c) →
    ∀ c ∈ floodLoop g W H target visited fill queue,
      FillReach g W H target start c := by
  intro visited fill queue
  induction visited, fill, queue using floodLoop.induct g W H target with
  | case1 visited fill =>
    intro hfill _
    rw [floodLoop_nil]
    exact hfill
  | case2 visited fill current rest h ih =>
    intro hfill hq
    rw [floodLoop_cons_visited _ _ _ _ _ _ _ _ h]
    exact ih hfill (fun c hc => hq c (List.mem_cons_of_mem _ hc))
  | case3 visited fill current rest h hb ih =>
    intro hfill hq
    rw [floodLoop_cons_oob _ _ _ _ _ _ _ _ h hb]
    exact ih hfill (fun c hc => hq c (List.mem_cons_of_mem _ hc))
  | case4 visited fill current rest h hb hm ih =>
    intro hfill hq
    rw [floodLoop_cons_match _ _ _ _ _ _ _ _ h hb hm]
    have hcur : FillReach g W H target start current :=
      hq current (List.mem_cons_self _ _) (not_oob_iff_inGrid.mp hb) hm
    apply ih
    · intro c hc
      rcases List.mem_append.mp hc with hc | hc
      · exact hfill c hc
      · rw [List.mem_singleton] at hc
        subst hc
        exact hcur
    · intro c hc hin hmat
      rcases List.mem_append.mp hc with hc | hc
      · exact hq c (List.mem_cons_of_mem _ hc) hin hmat
      · have hadj : c ∈ adjacentOf current := (List.mem_filter.mp hc).1
        exact FillReach.step hcur hadj hin hmat
  | case5 visited fill current rest h hb hm ih =>
    intro hfill hq
    rw [floodLoop_cons_nomatch _ _ _ _ _ _ _ _ h hb hm]
    exact ih hfill (fun c hc => hq c (List.mem_cons_of_mem _ hc))

/-- Completeness scaffolding for the flood-fill loop: the collected
prefix survives to the result, queued good cells end up in the result,
and the result is closed under in-bounds matching adjacency — provided
every neighbor of a collected cell is visited, queued or out of bounds,
and every visited good cell was already collected. -/
theorem floodLoop_complete (g : TileMap) (W H : Int) (target : Option String) :
    ∀ (visited : Finset Coord) (fill : List Coord) (queue : List Coord),
    (∀ c ∈ fill, ∀ d ∈ adjacentOf c,
      d ∈ visited ∨ d ∈ queue ∨ ¬ inGrid W H d) →
    (∀ c ∈ visited, inGrid W H c → matN g c = target → c ∈ fill) →
    (∀ c ∈ fill, c ∈ floodLoop g W H target visited fill queue) ∧
    (∀ c ∈ queue, inGrid W H c → matN g c = target →
      c ∈ floodLoop g W H target visited fill queue) ∧
    (∀ c ∈ floodLoop g W H target visited fill queue, ∀ d ∈ adjacentOf c,
      inGrid W H d → matN g d = target →
      d ∈ floodLoop g W H target visited fill queue) := by
  intro visited fill queue
  induction visited, fill, queue using floodLoop.induct g W H target with
  | case1 visited fill =>
    intro h1 h2
    rw [floodLoop_nil]
    refine ⟨fun c hc => hc, fun c hc => absurd hc (List.not_mem_nil c), ?_⟩
    intro c hc d hd hin hmat
    rcases h1 c hc d hd with hv | hq | hng
    · exact h2 d hv hin hmat
    · exact absurd hq (List.not_mem_nil d)
    · exact absurd hin hng
  | case2 visited fill current rest h ih =>
    intro h1 h2
    rw [floodLoop_cons_visited _ _ _ _ _ _ _ _ h]
    have h1' : ∀ c ∈ fill, ∀ d ∈ adjacentOf c,
        d ∈ visited ∨ d ∈ rest ∨ ¬ inGrid W H d := by
      intro c hc d hd
      rcases h1 c hc d hd with hv | hq | hng
      · exact Or.inl hv
      · rcases List.mem_cons.mp hq with rfl | hq
        · exact Or.inl h
        · exact Or.inr (Or.inl hq)
      · exact Or.inr (Or.inr hng)
    obtain ⟨c1, c2, c3⟩ := ih h1' h2
    refine ⟨c1, ?_, c3⟩
    intro c hc hin hmat
    rcases List.mem_cons.mp hc with rfl | hc
    · exact c1 c (h2 c h hin hmat)
    · exact c2 c hc hin hmat
  | case3 visited fill current rest h hb ih =>
    intro h1 h2
    rw [floodLoop_cons_oob _ _ _ _ _ _ _ _ h hb]
    have hng : ¬ inGrid W H current := fun hin => (not_oob_iff_inGrid.mpr hin) hb
    have h1' : ∀ c ∈ fill, ∀ d ∈ adjacentOf c,
        d ∈ visited ∨ d ∈ rest ∨ ¬ inGrid W H d := by
      intro c hc d hd
      rcases h1 c hc d hd with hv | hq | hg
      · exact Or.inl hv
      · rcases List.mem_cons.mp hq with rfl | hq
        · exact Or.inr (Or.inr hng)
        · exact Or.inr (Or.inl hq)
      · exact Or.inr (Or.inr hg)
    obtain ⟨c1, c2, c3⟩ := ih h1' h2
    refine ⟨c1, ?_, c3⟩
    intro c hc hin hmat
    rcases List.mem_cons.mp hc with rfl | hc
    · exact absurd hin hng
    · exact c2 c hc hin hmat
  | case4 visited fill current rest h hb hm ih =>
    intro h1 h2
    rw [floodLoop_cons_match _ _ _ _ _ _ _ _ h hb hm]
    have h1' : ∀ c ∈ fill ++ [current], ∀ d ∈ adjacentOf c,
        d ∈ insert current visited ∨
        d ∈ rest ++ (adjacentOf current).filter
          (fun p => decide (p ∉ insert current visited)) ∨
        ¬ inGrid W H d := by
      intro c hc d hd
      rcases List.mem_append.mp hc with hc | hc
      · rcases h1 c hc d hd with hv | hq | hg
        · exact Or.inl (Finset.mem_insert_of_mem hv)
        · rcases List.mem_cons.mp hq with rfl | hq
          · exact Or.inl (Finset.mem_insert_self _ _)
          · exact Or.inr (Or.inl (List.mem_append.mpr (Or.inl hq)))
        · exact Or.inr (Or.inr hg)
      · rw [List.mem_singleton] at hc
        subst hc
        by_cases hdv : d ∈ insert c visited
        · exact Or.inl hdv
        · refine Or.inr (Or.inl (List.mem_append.mpr (Or.inr ?_)))
          rw [List.mem_filter]
          exact ⟨hd, by simpa using hdv⟩
    have h2' : ∀ c ∈ insert current visited, inGrid W H c →
        matN g c = target → c ∈ fill ++ [current] := by
      intro c hc hin hmat
      rcases Finset.mem_insert.mp hc with rfl | hc
      · exact List.mem_append.mpr (Or.inr (List.mem_singleton.mpr rfl))
      · exact List.mem_append.mpr (Or.inl (h2 c hc hin hmat))
    obtain ⟨c1, c2, c3⟩ := ih h1' h2'
    have hcurF : current ∈ floodLoop g W H target (insert current visited)
        (fill ++ [current])
        (rest ++ (adjacentOf current).filter
          (fun p => decide (p ∉ insert current visited))) :=
      c1 current (List.mem_append.mpr (Or.inr (List.mem_singleton.mpr rfl)))
    refine ⟨?_, ?_, c3⟩
    · intro c hc
      exact c1 c (List.mem_append.mpr (Or.inl hc))
    · intro c hc hin hmat
      rcases List.mem_cons.mp hc with rfl | hc
      · exact hcurF
      · exact c2 c (List.mem_append.mpr (Or.inl hc)) hin hmat
  | case5 visited fill current rest h hb hm ih =>
    intro h1 h2
    rw [floodLoop_cons_nomatch _ _ _ _ _ _ _ _ h hb hm]
    have h1' : ∀ c ∈ fill, ∀ d ∈ adjacentOf c,
        d ∈ insert current visited ∨ d ∈ rest ∨ ¬ inGrid W H d := by
      intro c hc d hd
      rcases h1 c hc d hd with hv | hq | hg
      · exact Or.inl (Finset.mem_insert_of_mem hv)
      · rcases List.mem_cons.mp hq with rfl | hq
        · exact Or.inl (Finset.mem_insert_self _ _)
        · exact Or.inr (Or.inl hq)
      · exact Or.inr (Or.inr hg)
    have h2' : ∀ c ∈ insert current visited, inGrid W H c →
        matN g c = target → c ∈ fill := by
      intro c hc hin hmat
      rcases Finset.mem_insert.mp hc with rfl | hc
      · exact absurd hmat hm
      · exact h2 c hc hin hmat
    obtain ⟨c1, c2, c3⟩ := ih h1' h2'
    refine ⟨c1, ?_, c3⟩
    intro c hc hin hmat
    rcases List.mem_cons.mp hc with rfl | hc
    · exact absurd hmat hm
    · exact c2 c hc hin hmat

/-- Characterization of `getFloodFillTiles`: exactly the cells
4-connected to the start through in-bounds cells matching the start's
material. -/
theorem mem_getFloodFillTiles (g : TileMap) (W H sx sy : Int) (c : Coord) :
    c ∈ getFloodFillTiles g W H sx sy ↔
      FillReach g W H (matN g (sx, sy)) (sx, sy) c := by
  unfold getFloodFillTiles
  constructor
  · intro h
    refine floodLoop_sound g W H _ (sx, sy) ∅ [] [(sx, sy)]
      (by intro c hc; exact absurd hc (List.not_mem_nil c)) ?_ c h
    intro d hd hin hmat
    rw [List.mem_singleton] at hd
    subst hd
    exact FillReach.refl hin hmat
  · intro h
    have hbase := floodLoop_complete g W H (matN g (sx, sy)) ∅ [] [(sx, sy)]
      (by intro c hc; exact absurd hc (List.not_mem_nil c))
      (by intro c hc; exact absurd hc (Finset.not_mem_empty c))
    induction h with
    | refl hin hmat => exact hbase.2.1 (sx, sy) (List.mem_singleton.mpr rfl) hin hmat
    | step hr hadj hin hmat ih => exact hbase.2.2 _ ih _ hadj hin hmat

theorem matN_paintManyLoop (config : TilesetConfig) (M : String)
    (rnd : Nat → Rat × Rat) (hM : M ≠ "") :
    ∀ (ks : List Coord) (i : Nat) (m : TileMap) (c : Coord),
    matN (paintManyLoop config M rnd i m ks) c =
      if c ∈ ks then some M else matN m c := by
  intro ks
  induction ks with
  | nil => intro i m c; simp [paintManyLoop]
  | cons k ks ih =>
    intro i m c
    rw [paintManyLoop, ih]
    by_cases hks : c ∈ ks
    · simp [hks, List.mem_cons]
    · rw [if_neg hks, matN_tmSet]
      by_cases hk : c = k
      · simp [hk, mkPaintedTile, hM, List.mem_cons]
      · have : ¬ c ∈ k :: ks := by
          rw [List.mem_cons]
          rintro (rfl | hc)
          · exact hk rfl
          · exact hks hc
        simp [hk, this]

/-- The material map after `paintMultipleTiles`: every filled key holds
the selected material, every other cell is untouched (the trailing
border recalculation does not change materials). -/
theorem matN_paintMultipleTiles (config : TilesetConfig) (M : String)
    (rnd : Nat → Rat × Rat) (prev : TileMap) (keys : List Coord)
    (hM : M ≠ "") (c : Coord) :
    matN (paintMultipleTiles config M rnd prev keys) c =
      if c ∈ keys then some M else matN prev c := by
  unfold paintMultipleTiles
  rw [if_pos hM, matN_recalculateAllBorders, matN_paintManyLoop config M rnd hM]

/-- Every cell 4-reachable through matching cells is itself in-bounds
and matching. -/
theorem FillReach.good {g : TileMap} {W H : Int} {target : Option String}
    {start c : Coord} (h : FillReach g W H target start c) :
    inGrid W H c ∧ matN g c = target := by
  induction h with
  | refl hin hmat => exact ⟨hin, hmat⟩
  | step _ _ hin hmat _ => exact ⟨hin, hmat⟩

/-! ## Claim C5: flood-fill fixed point -/

/-- Claim C5, as stated, is false: filling with a material that already
sits next to the returned region makes the re-run expand into it. On the
2 by 1 grid with grass at (0,0) and (1,0) empty, flood fill at (1,0)
targets the empty material and returns only (1,0); after filling it with
grass, the re-run at (1,0) targets grass and also collects (0,0), so the
two coordinate sets differ. -/
theorem C5_counterexample :
    ((0, 0) : Coord) ∉ getFloodFillTiles gridG 2 1 1 0 ∧
    ((0, 0) : Coord) ∈ getFloodFillTiles
      (paintMultipleTiles cfgGrass "grass" rndZero gridG
        (getFloodFillTiles gridG 2 1 1 0)) 2 1 1 0 := by
  have hm00 : matN gridG (0, 0) = some "grass" := by decide
  have hm10 : matN gridG (1, 0) = none := by decide
  have h10S : ((1, 0) : Coord) ∈ getFloodFillTiles gridG 2 1 1 0 := by
    rw [mem_getFloodFillTiles]
    exact FillReach.refl (by constructor <;> simp) rfl
  constructor
  · rw [mem_getFloodFillTiles]
    intro h
    cases h with
    | step hr hadj hin hmat =>
      rw [hm10] at hmat
      rw [hm00] at hmat
      exact Option.noConfusion hmat
  · rw [mem_getFloodFillTiles]
    have hfill : ∀ c : Coord,
        matN (paintMultipleTiles cfgGrass "grass" rndZero gridG
          (getFloodFillTiles gridG 2 1 1 0)) c =
        if c ∈ getFloodFillTiles gridG 2 1 1 0 then some "grass"
        else matN gridG c :=
      fun c => matN_paintMultipleTiles cfgGrass "grass" rndZero gridG
        (getFloodFillTiles gridG 2 1 1 0) (by decide) c
    have ht : matN (paintMultipleTiles cfgGrass "grass" rndZero gridG
        (getFloodFillTiles gridG 2 1 1 0)) (1, 0) = some "grass" := by
      rw [hfill, if_pos h10S]
    have h00 : matN (paintMultipleTiles cfgGrass "grass" rndZero gridG
        (getFloodFillTiles gridG 2 1 1 0)) (0, 0) = some "grass" := by
      rw [hfill]
      by_cases h : ((0, 0) : Coord) ∈ getFloodFillTiles gridG 2 1 1 0
      · rw [if_pos h]
      · rw [if_neg h, hm00]
    rw [ht]
    refine FillReach.step (FillReach.refl (by constructor <;> simp) ht) ?_
      (by constructor <;> simp) h00
    simp [adjacentOf]

/-- Claim C5 (corrected): flood fill is a fixed point under the proviso
that the fill material does not already occur on a cell outside the
returned region that is 4-adjacent to it. For every grid, in-bounds
start coordinate, nonempty fill material `M` and random source, after
the returned coordinate set has been painted with `M` (which border
recalculation does not disturb), re-running flood fill at the same start
— whose target is now `M` — returns exactly the same coordinate set.
The counterexample `C5_counterexample` shows the proviso is necessary. -/
theorem C5_floodFill_fixed_point (config : TilesetConfig) (g : TileMap)
    (W H sx sy : Int) (M : String) (rnd : Nat → Rat × Rat)
    (hM : M ≠ "")
    (hin : inGrid W H (sx, sy))
    (hside : ∀ d, d ∉ getFloodFillTiles g W H sx sy →
      (∃ c ∈ getFloodFillTiles g W H sx sy, d ∈ adjacentOf c) →
      matN g d ≠ some M) :
    ∀ c, c ∈ getFloodFillTiles
        (paintMultipleTiles config M rnd g (getFloodFillTiles g W H sx sy))
        W H sx sy ↔
      c ∈ getFloodFillTiles g W H sx sy := by
  intro c
  have hstart : (sx, sy) ∈ getFloodFillTiles g W H sx sy := by
    rw [mem_getFloodFillTiles]
    exact FillReach.refl hin rfl
  have hfill : ∀ d : Coord,
      matN (paintMultipleTiles config M rnd g (getFloodFillTiles g W H sx sy)) d =
      if d ∈ getFloodFillTiles g W H sx sy then some M else matN g d :=
    fun d => matN_paintMultipleTiles config M rnd g
      (getFloodFillTiles g W H sx sy) hM d
  have htarget : matN (paintMultipleTiles config M rnd g
      (getFloodFillTiles g W H sx sy)) (sx, sy) = some M := by
    rw [hfill, if_pos hstart]
  constructor
  · intro h
    rw [mem_getFloodFillTiles, htarget] at h
    induction h with
    | refl _ _ => exact hstart
    | step hr hadj hind hmat ih =>
      rename_i cc dd
      by_cases hdS : dd ∈ getFloodFillTiles g W H sx sy
      · exact hdS
      · rw [hfill, if_neg hdS] at hmat
        exact absurd hmat (hside dd hdS ⟨cc, ih, hadj⟩)
  · intro h
    rw [mem_getFloodFillTiles] at h
    rw [mem_getFloodFillTiles, htarget]
    induction h with
    | refl hin2 hmat2 => exact FillReach.refl hin2 htarget
    | step hr hadj hind hmat ih =>
      rename_i cc dd
      have hdS : dd ∈ getFloodFillTiles g W H sx sy := by
        rw [mem_getFloodFillTiles]
        exact FillReach.step hr hadj hind hmat
      refine FillReach.step ih hadj hind ?_
      rw [hfill, if_pos hdS]

/-- Witness for `C5_floodFill_fixed_point`: on the 1 by 1 grass grid,
filling the flood region at the origin with water (absent from every
adjacent cell) and re-running yields the same membership at the origin. -/
theorem C5_witness :
    (((0, 0) : Coord) ∈ getFloodFillTiles
        (paintMultipleTiles cfgGrass "water" rndZero gridG
          (getFloodFillTiles gridG 1 1 0 0)) 1 1 0 0) ↔
      ((0, 0) : Coord) ∈ getFloodFillTiles gridG 1 1 0 0 :=
  C5_floodFill_fixed_point cfgGrass gridG 1 1 0 0 "water" rndZero
    (by decide)
    (by constructor <;> simp)
    (by
      intro d hd1 hd2
      by_cases h0 : d = (0, 0)
      · subst h0
        exact (by decide : matN gridG (0, 0) ≠ some "water")
      · intro hcontra
        have hnone : matN gridG d = none := by
          have hb : (((0 : Coord)) == d) = false :=
            beq_eq_false_iff_ne.mpr (fun hh => h0 hh.symm)
          simp [matN, tmGet, gridG, List.find?, hb]
        rw [hnone] at hcontra
        exact Option.noConfusion hcontra)
    (0, 0)

/-! ## The best-border scan -/

theorem one_le_borderPriority (d : String) : 1 ≤ borderPriority d := by
  unfold borderPriority
  split
  · omega
  · split
    · omega
    · split <;> omega

/-- Master invariant of the `for (const border of config.borders)` fold:
either no rule beats the incoming accumulator and it survives, or the
result is the first rule of maximal priority that beats it. -/
theorem bestBorder_foldl_master (su : Surroundings) (tileMat : String) :
    ∀ (l : List BorderTile) (b0 : Option BorderTile) (p0 : Int),
    (l.foldl (bestBorderStep su tileMat) (b0, p0) = (b0, p0) ∧
      ∀ b ∈ l, matchingRule su tileMat b → borderPriority b.directions ≤ p0) ∨
    (∃ b l1 l2, l = l1 ++ b :: l2 ∧
      l.foldl (bestBorderStep su tileMat) (b0, p0) =
        (some b, borderPriority b.directions) ∧
      matchingRule su tileMat b ∧
      p0 < borderPriority b.directions ∧
      (∀ b' ∈ l1, matchingRule su tileMat b' →
        borderPriority b'.directions < borderPriority b.directions) ∧
      (∀ b' ∈ l, matchingRule su tileMat b' →
        borderPriority b'.directions ≤ borderPriority b.directions)) := by
  intro l
  induction l with
  | nil =>
    intro b0 p0
    exact Or.inl ⟨rfl, fun b hb => absurd hb (List.not_mem_nil b)⟩
  | cons x l ih =>
    intro b0 p0
    by_cases hmx : matchingRule su tileMat x
    · by_cases hpx : p0 < borderPriority x.directions
      · have hstep : bestBorderStep su tileMat (b0, p0) x =
            (some x, borderPriority x.directions) := by
          unfold bestBorderStep
          rw [if_pos hmx.1, if_pos hmx.2, if_pos (by exact hpx)]
        rw [List.foldl_cons, hstep]
        rcases ih (some x) (borderPriority x.directions) with ⟨hr, hall⟩ | hR
        · refine Or.inr ⟨x, [], l, by simp, hr, hmx, hpx, ?_, ?_⟩
          · intro b' hb'
            exact absurd hb' (List.not_mem_nil b')
          · intro b' hb' hm'
            rcases List.mem_cons.mp hb' with rfl | hb'
            · exact le_refl _
            · exact hall b' hb' hm'
        · obtain ⟨b, l1, l2, hsplit, hr, hmb, hlt, hfirst, hmax⟩ := hR
          refine Or.inr ⟨b, x :: l1, l2, by rw [hsplit]; rfl, hr, hmb,
            lt_trans hpx hlt, ?_, ?_⟩
          · intro b' hb' hm'
            rcases List.mem_cons.mp hb' with rfl | hb'
            · exact hlt
            · exact hfirst b' hb' hm'
          · intro b' hb' hm'
            rcases List.mem_cons.mp hb' with rfl | hb'
            · exact le_of_lt hlt
            · exact hmax b' (hsplit ▸ hb') hm'
      · have hstep : bestBorderStep su tileMat (b0, p0) x = (b0, p0) := by
          unfold bestBorderStep
          rw [if_pos hmx.1, if_pos hmx.2, if_neg (by exact hpx)]
        rw [List.foldl_cons, hstep]
        rcases ih b0 p0 with ⟨hr, hall⟩ | hR
        · refine Or.inl ⟨hr, ?_⟩
          intro b hb hm
          rcases List.mem_cons.mp hb with rfl | hb
          · omega
          · exact hall b hb hm
        · obtain ⟨b, l1, l2, hsplit, hr, hmb, hlt, hfirst, hmax⟩ := hR
          refine Or.inr ⟨b, x :: l1, l2, by rw [hsplit]; rfl, hr, hmb, hlt, ?_, ?_⟩
          · intro b' hb' hm'
            rcases List.mem_cons.mp hb' with rfl | hb'
            · omega
            · exact hfirst b' hb' hm'
          · intro b' hb' hm'
            rcases List.mem_cons.mp hb' with rfl | hb'
            · omega
            · exact hmax b' (hsplit ▸ hb') hm'
    · have hstep : bestBorderStep su tileMat (b0, p0) x = (b0, p0) := by
        unfold bestBorderStep
        unfold matchingRule at hmx
        by_cases hA : x.materialA = tileMat
        · rw [if_pos hA]
          have : ¬ matchesBorderPattern su tileMat x.materialB x.directions = true := by
            intro hP
            exact hmx ⟨hA, hP⟩
          rw [if_neg this]
        · rw [if_neg hA]
      rw [List.foldl_cons, hstep]
      rcases ih b0 p0 with ⟨hr, hall⟩ | hR
      · refine Or.inl ⟨hr, ?_⟩
        intro b hb hm
        rcases List.mem_cons.mp hb with rfl | hb
        · exact absurd hm hmx
        · exact hall b hb hm
      · obtain ⟨b, l1, l2, hsplit, hr, hmb, hlt, hfirst, hmax⟩ := hR
        refine Or.inr ⟨b, x :: l1, l2, by rw [hsplit]; rfl, hr, hmb, hlt, ?_, ?_⟩
        · intro b' hb' hm'
          rcases List.mem_cons.mp hb' with rfl | hb'
          · exact absurd hm' hmx
          · exact hfirst b' hb' hm'
        · intro b' hb' hm'
          rcases List.mem_cons.mp hb' with rfl | hb'
          · exact absurd hm' hmx
          · exact hmax b' (hsplit ▸ hb') hm'

/-- When the scan returns a rule, it is one of the configured rules and
it applies at the cell. -/
theorem findBestBorder_spec (borders : List BorderTile) (su : Surroundings)
    (tileMat : String) (b : BorderTile)
    (h : findBestBorder borders su tileMat = some b) :
    b ∈ borders ∧ matchingRule su tileMat b := by
  rcases bestBorder_foldl_master su tileMat borders none (-1) with
    ⟨hr, _⟩ | ⟨b2, l1, l2, hsplit, hr, hmb, _, _, _⟩
  · unfold findBestBorder at h
    rw [hr] at h
    exact Option.noConfusion h
  · unfold findBestBorder at h
    rw [hr] at h
    have hb2 : b2 = b := Option.some.inj h
    subst hb2
    refine ⟨?_, hmb⟩
    rw [hsplit]
    exact List.mem_append.mpr (Or.inr (List.mem_cons_self _ _))

/-! ## Claim C1: border priority and tie-breaking -/

/-- Claim C1: when at least one border rule matches a painted cell, the
resolver assigns the matching rule of maximal priority — priority as
computed by the code: inward corners 3, single-letter cardinals 4,
two-letter diagonals 2, anything else 1 — and among equal-priority
matching rules the one occurring first in the rule list wins (every
matching rule strictly before the winner has strictly lower priority);
in particular, when a matching cardinal rule exists the winner is a
cardinal rule (priority 4), so a cardinal match beats any diagonal-corner
match. The winning rule's id is what the recalculation writes into the
cell's `borderTileId`. -/
theorem C1_priority_resolution (borders : List BorderTile) (m : TileMap)
    (k : Coord) (t : PaintedTile) (ht : tmGet m k = some t)
    (b' : BorderTile) (hb' : b' ∈ borders)
    (hm' : matchingRule (getAdjacentSurroundings m t.x t.y) t.materialId b') :
    ∃ b, findBestBorder borders (getAdjacentSurroundings m t.x t.y)
        t.materialId = some b ∧
      matchingRule (getAdjacentSurroundings m t.x t.y) t.materialId b ∧
      (∀ b'' ∈ borders,
        matchingRule (getAdjacentSurroundings m t.x t.y) t.materialId b'' →
        borderPriority b''.directions ≤ borderPriority b.directions) ∧
      (∃ l1 l2, borders = l1 ++ b :: l2 ∧
        ∀ b'' ∈ l1,
          matchingRule (getAdjacentSurroundings m t.x t.y) t.materialId b'' →
          borderPriority b''.directions < borderPriority b.directions) ∧
      ((∃ bc ∈ borders,
          matchingRule (getAdjacentSurroundings m t.x t.y) t.materialId bc ∧
          borderPriority bc.directions = 4) →
        borderPriority b.directions = 4) ∧
      tmGet (recalculateAllBorders borders m) k =
        some { x := t.x, y := t.y, materialId := t.materialId,
               borderTileId := some b.id, noiseIds := t.noiseIds } := by
  rcases bestBorder_foldl_master (getAdjacentSurroundings m t.x t.y)
      t.materialId borders none (-1) with
    ⟨_, hall⟩ | ⟨b, l1, l2, hsplit, hr, hmb, _, hfirst, hmax⟩
  · have := hall b' hb' hm'
    have := one_le_borderPriority b'.directions
    omega
  · have hfbb : findBestBorder borders (getAdjacentSurroundings m t.x t.y)
        t.materialId = some b := by
      unfold findBestBorder
      rw [hr]
    refine ⟨b, hfbb, hmb, hmax, ⟨l1, l2, hsplit, hfirst⟩, ?_, ?_⟩
    · rintro ⟨bc, hbc, hmc, hp4⟩
      have hle := hmax bc hbc hmc
      have hle4 : borderPriority b.directions ≤ 4 := by
        unfold borderPriority
        split
        · omega
        · split
          · omega
          · split <;> omega
      omega
    · rw [tmGet_recalculateAllBorders, ht]
      simp only [Option.map]
      rw [hfbb]

/-- Witness for `C1_priority_resolution`: the east-water rule matches the
grass cell of the 2 by 1 grid and is selected. -/
theorem C1_witness :
    ∃ b, findBestBorder [ruleE1]
        (getAdjacentSurroundings gridGW grassTile00.x grassTile00.y)
        grassTile00.materialId = some b ∧
      matchingRule (getAdjacentSurroundings gridGW grassTile00.x grassTile00.y)
        grassTile00.materialId b := by
  obtain ⟨b, h1, h2, _⟩ := C1_priority_resolution [ruleE1] gridGW (0, 0)
    grassTile00 (by decide) ruleE1 (List.mem_singleton.mpr rfl)
    ⟨by decide, by decide⟩
  exact ⟨b, h1, h2⟩

/-! ## Claim C2: inward-corner matching -/

/-- Claim C2: an inward-corner pattern matches exactly when at least two
orthogonal neighbors hold the partner material and the corner-specific
triple all hold it — with the asymmetric pairing of the source preserved:
inward-ne needs N,E,NE; inward-se needs S,E,SE; inward-sw needs N,W,NW;
inward-nw needs S,W,SW. Consequently a cell with fewer than two matching
orthogonal neighbors never matches any inward pattern, and a rule the
scan assigns whose directions start with "inward-" always has at least
two orthogonal neighbors equal to its partner material. -/
theorem C2_inward_corner (su : Surroundings) (A B : String) :
    (matchesBorderPattern su A B "inward-ne" = true ↔
      (2 ≤ orthogonalBorderCount su B ∧ su.n = some B ∧ su.e = some B ∧
        su.ne = some B)) ∧
    (matchesBorderPattern su A B "inward-se" = true ↔
      (2 ≤ orthogonalBorderCount su B ∧ su.s = some B ∧ su.e = some B ∧
        su.se = some B)) ∧
    (matchesBorderPattern su A B "inward-sw" = true ↔
      (2 ≤ orthogonalBorderCount su B ∧ su.n = some B ∧ su.w = some B ∧
        su.nw = some B)) ∧
    (matchesBorderPattern su A B "inward-nw" = true ↔
      (2 ≤ orthogonalBorderCount su B ∧ su.s = some B ∧ su.w = some B ∧
        su.sw = some B)) ∧
    (∀ d ∈ ["inward-ne", "inward-se", "inward-sw", "inward-nw"],
      orthogonalBorderCount su B < 2 → matchesBorderPattern su A B d = false) ∧
    (∀ (borders : List BorderTile) (b : BorderTile),
      findBestBorder borders su A = some b →
      startsWithInward b.directions = true →
      2 ≤ orthogonalBorderCount su b.materialB) := by
  have hne : matchesBorderPattern su A B "inward-ne" = true ↔
      (2 ≤ orthogonalBorderCount su B ∧ su.n = some B ∧ su.e = some B ∧
        su.ne = some B) := by
    by_cases h2 : 2 ≤ orthogonalBorderCount su B
    · simp only [matchesBorderPattern, if_neg (by decide :
        ¬("inward-ne" = "n" ∨ "inward-ne" = "s" ∨ "inward-ne" = "e" ∨ "inward-ne" = "w")),
        if_neg (by decide :
        ¬("inward-ne" = "ne" ∨ "inward-ne" = "se" ∨ "inward-ne" = "sw" ∨ "inward-ne" = "nw")),
        if_pos (by decide : startsWithInward "inward-ne" = true), if_pos h2,
        if_pos (by decide : cornerOf "inward-ne" = "ne")]
      simp [h2]
    · simp only [matchesBorderPattern, if_neg (by decide :
        ¬("inward-ne" = "n" ∨ "inward-ne" = "s" ∨ "inward-ne" = "e" ∨ "inward-ne" = "w")),
        if_neg (by decide :
        ¬("inward-ne" = "ne" ∨ "inward-ne" = "se" ∨ "inward-ne" = "sw" ∨ "inward-ne" = "nw")),
        if_pos (by decide : startsWithInward "inward-ne" = true), if_neg h2]
      simp [h2]
  have hse : matchesBorderPattern su A B "inward-se" = true ↔
      (2 ≤ orthogonalBorderCount su B ∧ su.s = some B ∧ su.e = some B ∧
        su.se = some B) := by
    by_cases h2 : 2 ≤ orthogonalBorderCount su B
    · simp only [matchesBorderPattern, if_neg (by decide :
        ¬("inward-se" = "n" ∨ "inward-se" = "s" ∨ "inward-se" = "e" ∨ "inward-se" = "w")),
        if_neg (by decide :
        ¬("inward-se" = "ne" ∨ "inward-se" = "se" ∨ "inward-se" = "sw" ∨ "inward-se" = "nw")),
        if_pos (by decide : startsWithInward "inward-se" = true), if_pos h2,
        if_neg (by decide : ¬ cornerOf "inward-se" = "ne"),
        if_pos (by decide : cornerOf "inward-se" = "se")]
      simp [h2]
    · simp only [matchesBorderPattern, if_neg (by decide :
        ¬("inward-se" = "n" ∨ "inward-se" = "s" ∨ "inward-se" = "e" ∨ "inward-se" = "w")),
        if_neg (by decide :
        ¬("inward-se" = "ne" ∨ "inward-se" = "se" ∨ "inward-se" = "sw" ∨ "inward-se" = "nw")),
        if_pos (by decide : startsWithInward "inward-se" = true), if_neg h2]
      simp [h2]
  have hsw : matchesBorderPattern su A B "inward-sw" = true ↔
      (2 ≤ orthogonalBorderCount su B ∧ su.n = some B ∧ su.w = some B ∧
        su.nw = some B) := by
    by_cases h2 : 2 ≤ orthogonalBorderCount su B
    · simp only [matchesBorderPattern, if_neg (by decide :
        ¬("inward-sw" = "n" ∨ "inward-sw" = "s" ∨ "inward-sw" = "e" ∨ "inward-sw" = "w")),
        if_neg (by decide :
        ¬("inward-sw" = "ne" ∨ "inward-sw" = "se" ∨ "inward-sw" = "sw" ∨ "inward-sw" = "nw")),
        if_pos (by decide : startsWithInward "inward-sw" = true), if_pos h2,
        if_neg (by decide : ¬ cornerOf "inward-sw" = "ne"),
        if_neg (by decide : ¬ cornerOf "inward-sw" = "se"),
        if_pos (by decide : cornerOf "inward-sw" = "sw")]
      simp [h2]
    · simp only [matchesBorderPattern, if_neg (by decide :
        ¬("inward-sw" = "n" ∨ "inward-sw" = "s" ∨ "inward-sw" = "e" ∨ "inward-sw" = "w")),
        if_neg (by decide :
        ¬("inward-sw" = "ne" ∨ "inward-sw" = "se" ∨ "inward-sw" = "sw" ∨ "inward-sw" = "nw")),
        if_pos (by decide : startsWithInward "inward-sw" = true), if_neg h2]
      simp [h2]
  have hnw : matchesBorderPattern su A B "inward-nw" = true ↔
      (2 ≤ orthogonalBorderCount su B ∧ su.s = some B ∧ su.w = some B ∧
        su.sw = some B) := by
    by_cases h2 : 2 ≤ orthogonalBorderCount su B
    · simp only [matchesBorderPattern, if_neg (by decide :
        ¬("inward-nw" = "n" ∨ "inward-nw" = "s" ∨ "inward-nw" = "e" ∨ "inward-nw" = "w")),
        if_neg (by decide :
        ¬("inward-nw" = "ne" ∨ "inward-nw" = "se" ∨ "inward-nw" = "sw" ∨ "inward-nw" = "nw")),
        if_pos (by decide : startsWithInward "inward-nw" = true), if_pos h2,
        if_neg (by decide : ¬ cornerOf "inward-nw" = "ne"),
        if_neg (by decide : ¬ cornerOf "inward-nw" = "se"),
        if_neg (by decide : ¬ cornerOf "inward-nw" = "sw"),
        if_pos (by decide : cornerOf "inward-nw" = "nw")]
      simp [h2]
    · simp only [matchesBorderPattern, if_neg (by decide :
        ¬("inward-nw" = "n" ∨ "inward-nw" = "s" ∨ "inward-nw" = "e" ∨ "inward-nw" = "w")),
        if_neg (by decide :
        ¬("inward-nw" = "ne" ∨ "inward-nw" = "se" ∨ "inward-nw" = "sw" ∨ "inward-nw" = "nw")),
        if_pos (by decide : startsWithInward "inward-nw" = true), if_neg h2]
      simp [h2]
  have hguard : ∀ d ∈ ["inward-ne", "inward-se", "inward-sw", "inward-nw"],
      orthogonalBorderCount su B < 2 → matchesBorderPattern su A B d = false := by
    intro d hd hlt
    have h2 : ¬ 2 ≤ orthogonalBorderCount su B := by omega
    fin_cases hd
    · cases hcase : matchesBorderPattern su A B "inward-ne"
      · rfl
      · exact absurd (hne.mp hcase).1 h2
    · cases hcase : matchesBorderPattern su A B "inward-se"
      · rfl
      · exact absurd (hse.mp hcase).1 h2
    · cases hcase : matchesBorderPattern su A B "inward-sw"
      · rfl
      · exact absurd (hsw.mp hcase).1 h2
    · cases hcase : matchesBorderPattern su A B "inward-nw"
      · rfl
      · exact absurd (hnw.mp hcase).1 h2
  refine ⟨hne, hse, hsw, hnw, hguard, ?_⟩
  intro borders b hfb hsw2
  have hmr := (findBestBorder_spec borders su A b hfb).2
  have hm := hmr.2
  by_cases hd1 : b.directions = "n" ∨ b.directions = "s" ∨ b.directions = "e" ∨
      b.directions = "w"
  · rcases hd1 with hd | hd | hd | hd <;> rw [hd] at hsw2 <;>
      exact absurd hsw2 (by decide)
  · by_cases hd2 : b.directions = "ne" ∨ b.directions = "se" ∨
        b.directions = "sw" ∨ b.directions = "nw"
    · rcases hd2 with hd | hd | hd | hd <;> rw [hd] at hsw2 <;>
        exact absurd hsw2 (by decide)
    · simp only [matchesBorderPattern, if_neg hd1, if_neg hd2,
        if_pos hsw2] at hm
      by_cases h2 : 2 ≤ orthogonalBorderCount su b.materialB
      · exact h2
      · rw [if_neg h2] at hm
        exact absurd hm (by simp)

/-- Witness for `C2_inward_corner`: instantiated at a neighborhood fully
surrounded by water, where the inward-ne pattern against water matches. -/
theorem C2_witness :
    matchesBorderPattern
      { n := some "water", ne := some "water", e := some "water",
        se := some "water", s := some "water", sw := some "water",
        w := some "water", nw := some "water" } "grass" "water"
      "inward-ne" = true :=
  (C2_inward_corner
    { n := some "water", ne := some "water", e := some "water",
      se := some "water", s := some "water", sw := some "water",
      w := some "water", nw := some "water" } "grass" "water").1.mpr
    ⟨by decide, rfl, rfl, rfl⟩

/-! ## Claim C6: cardinal matching and the concrete 2 by 1 scenario -/

/-- Claim C6: a cardinal pattern (n/e/s/w) matches exactly when exactly
one orthogonal neighbor holds the partner material and the neighbor in
the rule's direction holds it; consequently, on the 2 by 1 grid with
grass at (0,0), water at (1,0) and the single rule `E1` (grass bordered
by water to the east), recalculation gives (0,0) the border id "E1" and
leaves (1,0) without a border id. -/
theorem C6_cardinal_rule (su : Surroundings) (A B : String) :
    ((matchesBorderPattern su A B "n" = true ↔
      (orthogonalBorderCount su B = 1 ∧ su.n = some B)) ∧
    (matchesBorderPattern su A B "e" = true ↔
      (orthogonalBorderCount su B = 1 ∧ su.e = some B)) ∧
    (matchesBorderPattern su A B "s" = true ↔
      (orthogonalBorderCount su B = 1 ∧ su.s = some B)) ∧
    (matchesBorderPattern su A B "w" = true ↔
      (orthogonalBorderCount su B = 1 ∧ su.w = some B))) ∧
    tmGet (recalculateAllBorders [ruleE1] gridGW) (0, 0) =
      some { x := 0, y := 0, materialId := "grass", borderTileId := some "E1",
             noiseIds := none } ∧
    tmGet (recalculateAllBorders [ruleE1] gridGW) (1, 0) =
      some { x := 1, y := 0, materialId := "water", borderTileId := none,
             noiseIds := none } := by
  refine ⟨⟨?_, ?_, ?_, ?_⟩, by decide, by decide⟩ <;>
    simp only [matchesBorderPattern, true_or, false_or, or_true, or_false,
      if_true, if_false, decide_eq_true_eq, dirLookup]

/-! ## Claim C10: assigned border ids reference applicable rules -/

/-- Claim C10: after a border-recalculation pass, every cell whose
`borderTileId` is set carries the id of a rule from the configured rule
table whose `materialA` is the cell's own material. Every grid mutation
of the painter (paint, erase, bulk paint, flood fill) returns the result
of such a pass. -/
theorem C10_border_id_valid (borders : List BorderTile) (m : TileMap)
    (k : Coord) (t : PaintedTile)
    (ht : tmGet (recalculateAllBorders borders m) k = some t)
    (bid : String) (hbid : t.borderTileId = some bid) :
    ∃ r ∈ borders, r.id = bid ∧ r.materialA = t.materialId := by
  rw [tmGet_recalculateAllBorders] at ht
  cases ht0 : tmGet m k with
  | none => rw [ht0] at ht; exact Option.noConfusion ht
  | some t0 =>
    rw [ht0] at ht
    simp only [Option.map] at ht
    have ht' := Option.some.inj ht
    rw [← ht'] at hbid
    simp only at hbid
    cases hfb : findBestBorder borders
        (getAdjacentSurroundings m t0.x t0.y) t0.materialId with
    | none => rw [hfb] at hbid; exact Option.noConfusion hbid
    | some b =>
      rw [hfb] at hbid
      simp only [Option.map] at hbid
      have hb : b.id = bid := Option.some.inj hbid
      obtain ⟨hmem, hmr⟩ := findBestBorder_spec borders
        (getAdjacentSurroundings m t0.x t0.y) t0.materialId b hfb
      refine ⟨b, hmem, hb, ?_⟩
      rw [← ht']
      exact hmr.1

/-- Witness for `C10_border_id_valid`: the border id "E1" assigned to the
grass cell of the 2 by 1 grid references the configured east-water rule. -/
theorem C10_witness :
    ∃ r ∈ [ruleE1], r.id = "E1" ∧ r.materialA = "grass" := by
  obtain ⟨r, hr, hid, hA⟩ := C10_border_id_valid [ruleE1] gridGW (0, 0)
    { x := 0, y := 0, materialId := "grass", borderTileId := some "E1",
      noiseIds := none } (by decide) "E1" rfl
  exact ⟨r, hr, hid, hA⟩

/-! ## Claim C9: border recalculation frame conditions -/

/-- Claim C9: a full border-recalculation pass keeps exactly the same
set of keys and leaves every cell's `x`, `y`, `materialId` and
`noiseIds` unchanged — in particular noise is never re-rolled — only
`borderTileId` is recomputed. -/
theorem C9_recalc_frame (borders : List BorderTile) (m : TileMap) (k : Coord) :
    ((tmGet (recalculateAllBorders borders m) k).isSome = (tmGet m k).isSome) ∧
    (∀ t t', tmGet m k = some t →
      tmGet (recalculateAllBorders borders m) k = some t' →
      t'.x = t.x ∧ t'.y = t.y ∧ t'.materialId = t.materialId ∧
      t'.noiseIds = t.noiseIds) := by
  constructor
  · rw [tmGet_recalculateAllBorders]
    cases tmGet m k <;> simp
  · intro t t' ht ht'
    rw [tmGet_recalculateAllBorders, ht] at ht'
    simp only [Option.map] at ht'
    have := Option.some.inj ht'
    rw [← this]
    exact ⟨rfl, rfl, rfl, rfl⟩

/-- Witness for `C9_recalc_frame`: on the 2 by 1 grid the recalculated
grass cell keeps the original coordinates, material and noise ids. -/
theorem C9_witness :
    ({ x := 0, y := 0, materialId := "grass", borderTileId := some "E1",
       noiseIds := none } : PaintedTile).x = grassTile00.x ∧
    ({ x := 0, y := 0, materialId := "grass", borderTileId := some "E1",
       noiseIds := none } : PaintedTile).y = grassTile00.y ∧
    ({ x := 0, y := 0, materialId := "grass", borderTileId := some "E1",
       noiseIds := none } : PaintedTile).materialId = grassTile00.materialId ∧
    ({ x := 0, y := 0, materialId := "grass", borderTileId := some "E1",
       noiseIds := none } : PaintedTile).noiseIds = grassTile00.noiseIds :=
  (C9_recalc_frame [ruleE1] gridGW (0, 0)).2 grassTile00
    { x := 0, y := 0, materialId := "grass", borderTileId := some "E1",
      noiseIds := none } (by decide) (by decide)

/-! ## Claim C7: out-of-bounds paint and erase are silent no-ops -/

/-- Claim C7: a paint or erase gesture whose tile coordinate fails the
bounds test of `getTilePosition` leaves the painted-cell map unchanged;
the handler simply returns (the embedding is a total function — no error
value exists to surface). -/
theorem C7_out_of_bounds_noop (config : TilesetConfig) (gc : GridConfig)
    (isErasing : Bool) (selectedMaterial : String) (prev : TileMap)
    (x y : Int) (r0 u : Rat)
    (h : ¬ (0 ≤ x ∧ x < gc.width ∧ 0 ≤ y ∧ y < gc.height)) :
    handleBrushAt config gc isErasing selectedMaterial prev x y r0 u = prev := by
  unfold handleBrushAt getTilePositionValid
  rw [if_neg h]

/-- Witness for `C7_out_of_bounds_noop`: painting at (-1, 0) on a
20 by 15 grid leaves the one-cell grid untouched. -/
theorem C7_witness :
    handleBrushAt cfgGrass { width := 20, height := 15 } false "grass"
      gridG (-1) 0 0 0 = gridG :=
  C7_out_of_bounds_noop cfgGrass { width := 20, height := 15 } false "grass"
    gridG (-1) 0 0 0 (by decide)

/-! ## Claim C8: noise sampling -/

/-- Claim C8: a paint attaches at most one noise overlay id (the painted
cell's `noiseIds`, when present, is a one-element list); for every
possible pair of random draws, nothing is attached when the material's
`noiseProbability` is 0 or when no noise rule has the material as its
base; otherwise, for an in-range index draw, one id from the matching
rule set is attached exactly when the scaled draw `r0 * 100` is below
`noiseProbability`. -/
theorem C8_noise_sampling (config : TilesetConfig) (M : String)
    (mat : BaseMaterial)
    (hmat : config.materials.find? (fun mm => mm.id == M) = some mat)
    (hM : M ≠ "") (prev : TileMap) (x y : Int) (r0 u : Rat) :
    (∀ t l, tmGet (paintTile config false M prev x y r0 u) (x, y) = some t →
      t.noiseIds = some l → l.length = 1) ∧
    (mat.noiseProbability = 0 → sampleNoise config M r0 u = none) ∧
    (config.noise.filter (fun nn => nn.baseMaterial == M) = [] →
      sampleNoise config M r0 u = none) ∧
    (0 ≤ u → u < 1 →
      config.noise.filter (fun nn => nn.baseMaterial == M) ≠ [] →
      0 < mat.noiseProbability →
      ((∃ nid, sampleNoise config M r0 u = some nid ∧
          nid ∈ (config.noise.filter (fun nn => nn.baseMaterial == M)).map
            (·.id)) ↔
        r0 * 100 < mat.noiseProbability)) := by
  refine ⟨?_, ?_, ?_, ?_⟩
  · intro t l ht hl
    unfold paintTile at ht
    rw [if_neg (by simp), if_pos hM] at ht
    rw [tmGet_recalculateAllBorders, tmGet_tmSet, if_pos rfl] at ht
    simp only [Option.map] at ht
    have := Option.some.inj ht
    rw [← this] at hl
    simp only [mkPaintedTile] at hl
    cases hs : sampleNoise config M r0 u with
    | none => rw [hs] at hl; exact Option.noConfusion hl
    | some nid =>
      rw [hs] at hl
      simp only [Option.map] at hl
      have := Option.some.inj hl
      rw [← this]
      rfl
  · intro hp
    unfold sampleNoise
    rw [hmat]
    simp only
    rw [if_neg (by rw [hp]; intro hc; exact absurd hc.2 (lt_irrefl 0))]
  · intro hempty
    unfold sampleNoise
    rw [hmat]
    simp only
    rw [if_neg (by rw [hempty]; intro hc; simp at hc)]
  · intro hu0 hu1 hne hp
    have hlen : 0 < (config.noise.filter (fun nn => nn.baseMaterial == M)).length :=
      List.length_pos.mpr hne
    unfold sampleNoise
    rw [hmat]
    simp only
    rw [if_pos ⟨hlen, hp⟩]
    by_cases hr : r0 * 100 < mat.noiseProbability
    · rw [if_pos hr]
      have hflnn : (0 : Int) ≤
          ⌊u * (config.noise.filter (fun nn => nn.baseMaterial == M)).length⌋ := by
        apply Int.floor_nonneg.mpr
        apply mul_nonneg hu0
        exact_mod_cast Nat.zero_le _
      have hfllt :
          ⌊u * (config.noise.filter (fun nn => nn.baseMaterial == M)).length⌋ <
          ((config.noise.filter (fun nn => nn.baseMaterial == M)).length : Int) := by
        apply Int.floor_lt.mpr
        push_cast
        calc u * ((config.noise.filter (fun nn => nn.baseMaterial == M)).length : Rat)
            < 1 * ((config.noise.filter (fun nn => nn.baseMaterial == M)).length : Rat) := by
              apply mul_lt_mul_of_pos_right hu1
              exact_mod_cast hlen
        _ = _ := one_mul _
      have hidx :
          (⌊u * (config.noise.filter (fun nn => nn.baseMaterial == M)).length⌋).toNat <
          (config.noise.filter (fun nn => nn.baseMaterial == M)).length := by
        omega
      constructor
      · intro _
        exact hr
      · intro _
        have ha := List.get?_eq_get hidx
        refine ⟨((config.noise.filter (fun nn => nn.baseMaterial == M)).get
          ⟨_, hidx⟩).id, ?_, ?_⟩
        · rw [ha]
          rfl
        · exact List.mem_map.mpr
            ⟨(config.noise.filter (fun nn => nn.baseMaterial == M)).get
              ⟨_, hidx⟩, List.get?_mem ha, rfl⟩
    · rw [if_neg hr]
      constructor
      · rintro ⟨nid, hnid, _⟩
        exact absurd hnid (by simp)
      · intro hc
        exact absurd hc hr

/-- Witness for `C8_noise_sampling`: with one grass noise rule at
probability 50 and a draw of 0.25, an overlay from the matching set is
attached since 25 is below 50. -/
theorem C8_witness :
    (∃ nid, sampleNoise cfgGrassNoise "grass" (1 / 4) 0 = some nid ∧
        nid ∈ (cfgGrassNoise.noise.filter
          (fun nn => nn.baseMaterial == "grass")).map (·.id)) ↔
      (1 / 4 : Rat) * 100 <
        ({ id := "grass", noiseProbability := 50 } : BaseMaterial).noiseProbability :=
  (C8_noise_sampling cfgGrassNoise "grass"
    { id := "grass", noiseProbability := 50 } (by decide) (by decide)
    [] 0 0 (1 / 4) 0).2.2.2 (by decide) (by decide) (by decide) (by decide)

/-! ## Claim C3: history commit semantics -/

/-- Claim C3, as stated, is false for `clearCanvas` (and `loadMap`): a
clear after an undo appends the empty snapshot to the whole history list
instead of truncating the redoable future first. Concretely: paint one
cell and commit (history `[[], gridG]`, index 1), undo (index 0), then
clear — the code produces history `[[], gridG, []]`, not the
truncate-and-append result `[[], []]`. -/
theorem C3_counterexample :
    (clearCanvas (undo (commitGesture
      { paintedTiles := gridG, history := [[]], historyIndex := 0 }))).history ≠
      (undo (commitGesture
        { paintedTiles := gridG, history := [[]], historyIndex := 0 })).history.take
        ((undo (commitGesture
          { paintedTiles := gridG, history := [[]], historyIndex := 0 })).historyIndex + 1) ++
      [(clearCanvas (undo (commitGesture
        { paintedTiles := gridG, history := [[]], historyIndex := 0 }))).paintedTiles] := by
  decide

/-- Claim C3 (corrected): the commits of brush, rectangle, circle and
fill gestures truncate the snapshots after the current index, append the
new snapshot and advance the index to the new last position — so for
those commits a redoable future is discarded — but `clearCanvas` and the
`loadMap` commit append their snapshot to the whole history without
truncating (setting the index to the new last position), as
`C3_counterexample` shows. -/
theorem C3_commit_semantics (st : PainterState) (g restored : TileMap) :
    ((commitGesture { st with paintedTiles := g }).history =
      st.history.take (st.historyIndex + 1) ++ [g] ∧
     (commitGesture { st with paintedTiles := g }).historyIndex =
      (st.history.take (st.historyIndex + 1)).length ∧
     (commitGesture { st with paintedTiles := g }).paintedTiles = g) ∧
    ((clearCanvas st).history = st.history ++ [[]] ∧
     (clearCanvas st).historyIndex = st.history.length ∧
     (clearCanvas st).paintedTiles = []) ∧
    ((loadMapCommit st restored).history = st.history ++ [restored] ∧
     (loadMapCommit st restored).historyIndex = st.history.length ∧
     (loadMapCommit st restored).paintedTiles = restored) := by
  unfold commitGesture clearCanvas loadMapCommit
  simp

/-! ## Claim C4: undo/redo round trip -/

/-- In every reachable painter state the history is nonempty and the
index addresses a snapshot. (The live grid does not always equal that
snapshot: `C4_counterexample` reaches a state where it does not.) -/
theorem reachable_inv {st : PainterState} (h : Reachable st) :
    st.historyIndex < st.history.length := by
  induction h with
  | init => simp
  | mutate st g hr ih => exact ih
  | brushCommit st hr ih =>
    unfold commitGesture
    have htk : (st.history.take (st.historyIndex + 1)).length =
        st.historyIndex + 1 := by
      rw [List.length_take]
      omega
    simp only [List.length_append, List.length_cons, List.length_nil, htk]
    omega
  | shapeCommit config selectedMaterial rnd st previewKeys hr ih =>
    unfold handleMouseUpShape
    have htk : (st.history.take (st.historyIndex + 1)).length =
        st.historyIndex + 1 := by
      rw [List.length_take]
      omega
    simp only [List.length_append, List.length_cons, List.length_nil, htk]
    omega
  | clear st hr ih =>
    unfold clearCanvas
    simp
  | load st g hr ih =>
    unfold loadMapCommit
    simp
  | undoStep st hr ih =>
    unfold undo
    by_cases hpos : 0 < st.historyIndex
    · rw [if_pos hpos]
      simp only
      omega
    · rw [if_neg hpos]
      exact ih
  | redoStep st hr ih =>
    unfold redo
    by_cases hlt : st.historyIndex < st.history.length - 1
    · rw [if_pos hlt]
      simp only
      omega
    · rw [if_neg hlt]
      exact ih

/-- Claim C4, as stated, is false: the rectangle/circle branch of
`handleMouseUp` pushes the stale pre-gesture grid (line 778 reads the
handler closure's `paintedTiles` while the `paintMultipleTiles` update is
still queued), so the program reaches states whose live grid differs from
the snapshot at the current index, and there `undo(); redo();` restores
the stale snapshot rather than the pre-undo grid. Concretely: from the
initial state, a rectangle gesture painting (0,0) with grass yields the
live grid holding the painted cell, history `[[], []]`, index 1; undo
then redo leaves the empty snapshot, not the painted grid. -/
theorem C4_counterexample :
    Reachable (handleMouseUpShape cfgGrass "grass" rndZero
      { paintedTiles := [], history := [[]], historyIndex := 0 } [(0, 0)]) ∧
    (redo (undo (handleMouseUpShape cfgGrass "grass" rndZero
        { paintedTiles := [], history := [[]], historyIndex := 0 }
        [(0, 0)]))).paintedTiles ≠
      (handleMouseUpShape cfgGrass "grass" rndZero
        { paintedTiles := [], history := [[]], historyIndex := 0 }
        [(0, 0)]).paintedTiles :=
  ⟨Reachable.shapeCommit cfgGrass "grass" rndZero
      { paintedTiles := [], history := [[]], historyIndex := 0 } [(0, 0)]
      Reachable.init,
    by decide⟩

/-- Claim C4 (corrected): in every reachable state, undo is a no-op at
index 0 and redo is a no-op at the last snapshot; and undo followed by
redo restores the state — including the grid with every cell's previously
rolled noise ids, since snapshots are restored verbatim — provided the
live grid equals the snapshot at the current index. That proviso holds
after brush commits, clears, loads, undos and redos, but
`C4_counterexample` shows it — and with it the round trip — fails after a
rectangle/circle gesture, whose commit pushes the stale pre-gesture grid
(and a fill gesture commits nothing at all, its `handleMouseUp` branch
being unreachable). -/
theorem C4_undo_redo (st : PainterState) (h : Reachable st) :
    (st.history.get? st.historyIndex = some st.paintedTiles →
      0 < st.historyIndex → redo (undo st) = st) ∧
    (st.historyIndex = 0 → undo st = st) ∧
    (st.historyIndex = st.history.length - 1 → redo st = st) := by
  have hlt := reachable_inv h
  obtain ⟨pt, hist, idx⟩ := st
  simp only at hlt
  refine ⟨?_, ?_, ?_⟩
  · intro hget hpos
    simp only at hget hpos
    have hc2 : idx - 1 < hist.length - 1 := by omega
    have h1 : idx - 1 + 1 = idx := by omega
    simp only [undo, redo, hpos, hc2, if_true, h1, hget, Option.getD_some]
  · intro h0
    simp only at h0
    have hc : ¬ 0 < idx := by omega
    simp only [undo, hc, if_false]
  · intro hlast
    simp only at hlast
    have hc : ¬ idx < hist.length - 1 := by omega
    simp only [redo, hc, if_false]

/-- Witness for `C4_undo_redo`: after one brush commit of the one-cell
grid the live grid equals the committed snapshot, and undo then redo
restores the state. -/
theorem C4_witness :
    redo (undo
      { paintedTiles := gridG
        history := [[], gridG]
        historyIndex := 1 }) =
      { paintedTiles := gridG, history := [[], gridG], historyIndex := 1 } :=
  (C4_undo_redo
    { paintedTiles := gridG, history := [[], gridG], historyIndex := 1 }
    (Reachable.brushCommit
      { paintedTiles := gridG
        history := [([] : TileMap)]
        historyIndex := 0 }
      (Reachable.mutate
        { paintedTiles := ([] : TileMap)
          history := [([] : TileMap)]
          historyIndex := 0 }
        gridG Reachable.init))).1 (by decide) (by decide)
